import Mathlib

/-!
Formal model of the nano402 core library (packages/nano402-core/src),
a shallow embedding of the invoice lifecycle, payment verification,
index allocation, amount conversion, RPC retry and guard logic.

Timestamps are embedded as integers (milliseconds since epoch); ISO-8601
date strings compare consistently with their numeric time values, so
`new Date(a) < new Date(b)` becomes integer comparison.  Raw currency
amounts (`BigInt` in the source) are embedded as `Nat`.  Optional
JavaScript fields become `Option`; string truthiness (empty string is
falsy) is modelled explicitly where the source relies on it.
-/

namespace Nano402

/-! ## Index store (indexStore.ts, FileIndexStore) -/

/-- State of a `FileIndexStore`: the set of used indexes (kept as a list,
queried by membership, mirroring the JS `Set`) and the `highestIndex`
watermark, which starts at `-1`. -/
structure IndexState where
  indexes : List Nat
  highestIndex : Int
  deriving Repr, DecidableEq

/-- Fresh store state, as built by the `FileIndexStore` constructor. -/
def IndexState.empty : IndexState := { indexes := [], highestIndex := -1 }

/-- The `while (this.indexes.has(nextIndex)) nextIndex++` scan of
`getNextIndex`: the first value at or above `start` that is not in the
used set.  Recursion is on the length of the list: each step removes the
found occurrence. -/
def nextFreeAux : Nat → List Nat → Nat → Nat
  | 0, _, start => start
  | fuel + 1, l, start =>
    if start ∈ l then nextFreeAux fuel (l.erase start) (start + 1) else start

/-- The `while (this.indexes.has(nextIndex)) nextIndex++` loop body as a
fuelled recursion; fuel `l.length` always suffices because each iteration
removes the hit from the candidate set. -/
def nextFree (l : List Nat) (start : Nat) : Nat :=
  nextFreeAux l.length l start

/-- The `markIndexUsed` mutation: add the index to the set (if absent) and
raise the watermark. -/
def markIndexUsed (s : IndexState) (i : Nat) : IndexState :=
  if i ∈ s.indexes then s
  else { indexes := i :: s.indexes,
         highestIndex := max s.highestIndex (i : Int) }

/-- The `getNextIndex` operation: scan forward from `highestIndex + 1`
skipping used values, mark the result used (which persists), return it. -/
def getNextIndex (s : IndexState) : Nat × IndexState :=
  let n := nextFree s.indexes (s.highestIndex + 1).toNat
  (n, markIndexUsed s n)

/-- Content of the persisted JSON file written by `persist`
(`indexes`, `highestIndex`; the denormalized invoice copies are not
relevant to index allocation). -/
structure PersistedIndexFile where
  indexes : List Nat
  highestIndex : Int
  deriving Repr, DecidableEq

/-- The `persist` write: the full in-memory index state is written out. -/
def persistIndexFile (s : IndexState) : PersistedIndexFile :=
  { indexes := s.indexes, highestIndex := s.highestIndex }

/-- The load in `FileIndexStore`: rebuild the in-memory state from the
persisted file. -/
def loadIndexFile (f : PersistedIndexFile) : IndexState :=
  { indexes := f.indexes, highestIndex := f.highestIndex }

/-- A run of `k` consecutive `getNextIndex` calls, returning the issued
indexes in order together with the final state. -/
def runAllocator (s : IndexState) : Nat → List Nat × IndexState
  | 0 => ([], s)
  | k + 1 =>
    let (n, s1) := getNextIndex s
    let (ns, s2) := runAllocator s1 k
    (n :: ns, s2)

/-! ## Amount conversion (xnoUtils: xnoToRaw / rawToXno)

The source works on JavaScript strings; the model works on the underlying
character lists, with thin `String` wrappers. -/

/-- Error raised by the conversion helpers (`InvalidAmountError`). -/
inductive AmountErr where
  | invalid (msg : String)
  deriving Repr, DecidableEq

/-- Nano maximum supply in raw units, `2^128 - 1` (the `MAX_RAW` constant). -/
def MAX_RAW : List Char := "340282366920938463463374607431768211455".data

/-- JavaScript `String.prototype.trim` on the character list (whitespace
stripped from both ends). -/
def jsTrim (l : List Char) : List Char :=
  ((l.dropWhile Char.isWhitespace).reverse.dropWhile Char.isWhitespace).reverse

/-- The `/[eE]/` scientific-notation test. -/
def hasSciChar (l : List Char) : Bool :=
  l.any fun c => c = 'e' || c = 'E'

/-- The format regex `^-?\d+(\.\d+)?$`: optional sign, one or more digits,
optionally a dot followed by one or more digits. -/
def validNumFormat (l : List Char) : Bool :=
  let l2 := if l.head? = some '-' then l.tail else l
  let intPart := l2.takeWhile Char.isDigit
  let rest := l2.dropWhile Char.isDigit
  !intPart.isEmpty &&
    (rest.isEmpty ||
      (match rest with
       | '.' :: ds => !ds.isEmpty && ds.all Char.isDigit
       | _ => false))

/-- The projections `parts[0]` and `parts[1]` of `trimmed.split(".")`.
The source splits only after the format check, so at most one dot occurs
and these projections coincide with the JS split. -/
def splitDot (l : List Char) : List Char × Option (List Char) :=
  let ip := l.takeWhile (· != '.')
  match l.dropWhile (· != '.') with
  | [] => (ip, none)
  | _ :: ds => (ip, some ds)

/-- JavaScript string `>` (lexicographic comparison by code unit), used by
the `cleaned > MAX_RAW` bound check. -/
def lexGt : List Char → List Char → Bool
  | [], [] => false
  | [], _ :: _ => false
  | _ :: _, [] => true
  | a :: as, b :: bs => if a = b then lexGt as bs else decide (b < a)

/-- The `xnoToRaw` validation-and-conversion pipeline on character lists. -/
def xnoToRawL (x : List Char) : Except AmountErr (List Char) :=
  if x.isEmpty then .error (.invalid "Amount must be a non-empty string")
  else
  let trimmed := jsTrim x
  if trimmed.isEmpty then .error (.invalid "Amount cannot be empty")
  else if hasSciChar trimmed then
    .error (.invalid "Scientific notation is not supported")
  else if !validNumFormat trimmed then
    .error (.invalid "Invalid format. Expected decimal number")
  else if trimmed.head? = some '-' then
    .error (.invalid "Amount cannot be negative")
  else
  let parts := splitDot trimmed
  let integer := if parts.1.isEmpty then ['0'] else parts.1
  let decimal := parts.2.getD []
  if 30 < decimal.length then
    .error (.invalid "Amount cannot have more than 30 decimal places")
  else
  let paddedDecimal := (decimal ++ List.replicate 30 '0').take 30
  let combined := integer ++ paddedDecimal
  let dropped := combined.dropWhile (· == '0')
  let cleaned := if dropped.isEmpty then ['0'] else dropped
  if MAX_RAW.length < cleaned.length then
    .error (.invalid "Amount exceeds maximum value")
  else if (cleaned.length == MAX_RAW.length) && lexGt cleaned MAX_RAW then
    .error (.invalid "Amount exceeds maximum value")
  else .ok cleaned

/-- The `rawToXno` conversion on character lists: strip leading zeros,
left-pad to 31 digits, split 30 decimal places off, strip trailing zeros. -/
def rawToXnoL (raw : List Char) : Except AmountErr (List Char) :=
  if raw.isEmpty then .error (.invalid "Raw amount must be a non-empty string")
  else
  let dropped := raw.dropWhile (· == '0')
  let cleaned := if dropped.isEmpty then ['0'] else dropped
  let padded := List.replicate (31 - cleaned.length) '0' ++ cleaned
  let integerRaw := padded.take (padded.length - 30)
  let integer := if integerRaw.isEmpty then ['0'] else integerRaw
  let decimal := padded.drop (padded.length - 30)
  let trimmedDecimal := (decimal.reverse.dropWhile (· == '0')).reverse
  .ok (if trimmedDecimal.isEmpty then integer else integer ++ '.' :: trimmedDecimal)

/-- String wrapper for `xnoToRawL`. -/
def xnoToRaw (x : String) : Except AmountErr String :=
  (xnoToRawL x.data).map fun l => ⟨l⟩

/-- String wrapper for `rawToXnoL`. -/
def rawToXno (r : String) : Except AmountErr String :=
  (rawToXnoL r.data).map fun l => ⟨l⟩

/-- Numeric value of a digit string (`BigInt(...)` of a raw amount). -/
def digitsToNat (l : List Char) : Nat :=
  l.foldl (fun acc c => acc * 10 + (c.toNat - '0'.toNat)) 0

/-- Composition used by the invoice engine: validate an XNO amount and
read off its raw value as a natural number. -/
def xnoToRawNat (x : String) : Except AmountErr Nat :=
  (xnoToRawL x.data).map digitsToNat

/-- Canonical decimal strings: integer part without superfluous leading
zeros, and a fractional part (when present) that is nonempty, at most 30
digits, with no trailing zero.  These are exactly the strings `rawToXno`
can produce for in-range values. -/
def canonicalInt (l : List Char) : Bool :=
  !l.isEmpty && l.all Char.isDigit && (!(l.head? == some '0') || l == ['0'])

/-- Decidable canonicity test for a whole decimal string. -/
def canonicalXno (l : List Char) : Bool :=
  match splitDot l with
  | (ip, none) => canonicalInt ip && l.all (· != '.')
  | (ip, some dp) =>
    canonicalInt ip && !dp.isEmpty && dp.all Char.isDigit &&
      !(dp.getLast? == some '0') && decide (dp.length ≤ 30) &&
      (l == ip ++ '.' :: dp)

/-! ## Invoice data model (types.ts) -/

/-- The closed status variant behind the `status` string field. -/
inductive InvoiceStatus where
  | pending
  | paid
  | used
  | expired
  | cancelled
  | refunded
  deriving Repr, DecidableEq

/-- An invoice record.  Timestamps are integers (ms); optional fields are
`Option`; `amount_raw` carries the `BigInt` value of the raw-amount
string.  The bookkeeping fields not consulted by the verification engine
(`user_agent`, `referer`, `metadata`) are omitted. -/
structure Invoice where
  id : String
  index : Nat
  resource : String
  nano_account : String
  amount_xno : String
  amount_raw : Nat
  created_at : Int
  expires_at : Int
  status : InvoiceStatus
  tx_hash : Option String := none
  paid_at : Option Int := none
  sender_account : Option String := none
  proof_expires_at : Option Int := none
  client_ip : Option String := none
  access_count : Option Nat := none
  last_accessed_at : Option Int := none
  deriving Repr, DecidableEq

/-! ## In-memory invoice store (memoryInvoiceStore.ts)

The JS `Map`s become association lists with `Map.set` replace-or-append
semantics.  The per-key promise locks serialize the store mutations; in
this model every store operation is a single atomic step, which is what
the locks guarantee for the individual operations (the interleaving of
whole operations is modelled separately for the create race).  The
`client_ip → resource` side index and the recovery copy written into the
index store do not affect any claim and are omitted. -/

/-- Lookup in a JS `Map` modelled as an association list. -/
def assocGet {α : Type} (l : List (String × α)) (k : String) : Option α :=
  (l.find? fun p => p.1 == k).map fun p => p.2

/-- JS `Map.set`: replace the binding in place, or append a fresh one. -/
def assocSet {α : Type} : List (String × α) → String → α → List (String × α)
  | [], k, v => [(k, v)]
  | (k1, v1) :: t, k, v =>
    if k1 == k then (k, v) :: t else (k1, v1) :: assocSet t k v

/-- State of a `MemoryInvoiceStore` (plus its index store). -/
structure MemStore where
  invoices : List (String × Invoice)
  resourceIndex : List (String × String)
  index : IndexState
  deriving Repr, DecidableEq

/-- The empty store over a fresh index state. -/
def MemStore.empty : MemStore :=
  { invoices := [], resourceIndex := [], index := IndexState.empty }

/-- Typed store errors (errors.ts: `InvoiceNotFoundError`,
`InvoiceNotPaidError`). -/
inductive StoreErr where
  | notFound
  | notPaid
  deriving Repr, DecidableEq

/-- The `findById` query. -/
def findById (s : MemStore) (id : String) : Option Invoice :=
  assocGet s.invoices id

/-- The `findPendingByResource` query: follow the resource index, then
require a pending, unexpired invoice. -/
def findPendingByResource (s : MemStore) (resource : String) (now : Int) :
    Option Invoice :=
  match assocGet s.resourceIndex resource with
  | none => none
  | some id =>
    match assocGet s.invoices id with
    | none => none
    | some inv =>
      if inv.status = .pending then
        if inv.expires_at < now then none else some inv
      else none

/-- The `save` mutation: mark the index used in the index store, store the
invoice by id, point the resource index at it. -/
def storeSave (s : MemStore) (inv : Invoice) : MemStore :=
  { s with
    index := markIndexUsed s.index inv.index,
    invoices := assocSet s.invoices inv.id inv,
    resourceIndex := assocSet s.resourceIndex inv.resource inv.id }

/-- A `Partial<Invoice>` patch restricted to the fields the engine writes.
A present field overrides the stored one (`{ ...invoice, ...updates }`);
`sender_account` is doubly optional because the source writes the key
with a possibly-undefined value. -/
structure InvoiceUpdate where
  status : Option InvoiceStatus := none
  tx_hash : Option String := none
  paid_at : Option Int := none
  sender_account : Option (Option String) := none
  client_ip : Option String := none
  access_count : Option Nat := none
  last_accessed_at : Option Int := none
  deriving Repr, DecidableEq

/-- Spread-merge of a patch over an invoice. -/
def applyUpdate (inv : Invoice) (u : InvoiceUpdate) : Invoice :=
  { inv with
    status := u.status.getD inv.status,
    tx_hash := match u.tx_hash with | some h => some h | none => inv.tx_hash,
    paid_at := match u.paid_at with | some p => some p | none => inv.paid_at,
    sender_account := u.sender_account.getD inv.sender_account,
    client_ip := match u.client_ip with | some c => some c | none => inv.client_ip,
    access_count :=
      match u.access_count with | some a => some a | none => inv.access_count,
    last_accessed_at :=
      match u.last_accessed_at with
      | some t => some t
      | none => inv.last_accessed_at }

/-- The store `update` operation: `InvoiceNotFoundError` when the id is
absent, otherwise merge the patch and repoint the resource index. -/
def storeUpdate (s : MemStore) (id : String) (u : InvoiceUpdate) :
    Except StoreErr MemStore :=
  match assocGet s.invoices id with
  | none => .error .notFound
  | some inv =>
    .ok { s with
          invoices := assocSet s.invoices id (applyUpdate inv u),
          resourceIndex := assocSet s.resourceIndex inv.resource id }

/-- Total wrapper for `storeUpdate` at call sites where the invoice was
just found, so `NotFound` is impossible. -/
def forceUpdate (s : MemStore) (id : String) (u : InvoiceUpdate) : MemStore :=
  match storeUpdate s id u with
  | .ok s2 => s2
  | .error _ => s

/-! ## Payment verification (nano402.ts: verifyPayment) -/

/-- JavaScript string truthiness: the empty string is falsy. -/
def jsTruthy (s : String) : Bool := s != ""

/-- One entry of an `accounts_pending` response for the account: either a
bare amount string or an `{ amount, source }` object. -/
inductive PendingAmount where
  | simple (amount : Nat)
  | detailed (amount : Nat) (source : Option String)
  deriving Repr, DecidableEq

/-- One entry of an `account_history` response. -/
structure HistTx where
  type : String
  account : String
  amount : Nat
  hash : String
  confirmed : Option String
  local_timestamp : Option Nat
  deriving Repr, DecidableEq

/-- The ledger responses a single `verifyPayment` call observes.
An `error` value means the RPC call threw (`RpcError` / `RpcTimeoutError`);
`ok none` for pending means the response had no block map for the
account. -/
structure LedgerEnv where
  pending : Except Unit (Option (List (String × PendingAmount)))
  history : Except Unit (List HistTx)

/-- The per-call `PaymentVerificationOptions`. -/
structure PaymentVerificationOptions where
  verifyTimestamp : Option Bool := none
  verifySender : Option Bool := none
  allowedSenders : Option (List String) := none
  acceptPending : Option Bool := none
  deriving Repr, DecidableEq

/-- The verification-related instance configuration of a `Nano402` object,
after the constructor applied its defaults (`verifySender ?? false`,
`acceptPending ?? true`, `proofExpirationSeconds ?? 3600`). -/
structure VerifyCfg where
  verifySender : Bool := false
  allowedSenders : Option (List String) := none
  acceptPending : Bool := true
  proofExpirationSeconds : Nat := 3600
  deriving Repr, DecidableEq

/-- The `for (const [hash, amountOrObj] of blocks)` loop over pending
blocks: the first entry that passes the proof-hash, amount and sender
checks, returned as `(hash, senderAccount)`. -/
def findPendingMatch (proof : Option String) (required : Nat)
    (verifySender : Bool) (allowed : Option (List String)) :
    List (String × PendingAmount) → Option (String × Option String)
  | [] => none
  | (hash, entry) :: rest =>
    let next := findPendingMatch proof required verifySender allowed rest
    if (match proof with
        | some p => jsTruthy p && hash != p
        | none => false) then next
    else
      let amount := match entry with
        | .simple a => a
        | .detailed a _ => a
      let senderAccount : Option String := match entry with
        | .simple _ => none
        | .detailed _ src => src
      if amount < required then next
      else if (verifySender &&
          (match senderAccount with
           | some sa =>
             jsTruthy sa &&
               (match allowed with
                | some l => !l.isEmpty && !l.contains sa
                | none => false)
           | none => false)) then next
      else some (hash, senderAccount)

/-- The `confirmed === "true"` test on a history entry. -/
def isConfirmedTx (tx : HistTx) : Bool := tx.confirmed == some "true"

/-- The `confirmed === "false" || confirmed === undefined` test. -/
def isPendingTx (tx : HistTx) : Bool :=
  tx.confirmed == some "false" || tx.confirmed == none

/-- The `historyArray.find(...)` predicate: proof hash (when truthy),
receive type, confirmation policy, amount, timestamp and sender checks. -/
def histTxMatches (proof : Option String) (required : Nat)
    (acceptPendingBlocks verifyTimestamp verifySender : Bool)
    (allowed : Option (List String)) (createdAt : Int) (tx : HistTx) : Bool :=
  (match proof with
   | some p => !jsTruthy p || tx.hash == p
   | none => true) &&
  (tx.type == "receive") &&
  (isConfirmedTx tx || (acceptPendingBlocks && isPendingTx tx)) &&
  !(tx.amount < required : Bool) &&
  (if verifyTimestamp then
     match tx.local_timestamp with
     | some t => !((t : Int) * 1000 < createdAt : Bool)
     | none => true
   else true) &&
  (if verifySender then
     match allowed with
     | some l => l.isEmpty || l.contains tx.account
     | none => true
   else true)

/-- The `verifyPayment` engine.  `now` is the clock read by the call
(`new Date()`); `ledger` carries the RPC responses this call would
observe.  Returns the boolean result and the store after the call; webhook
dispatch has no effect on the store and is omitted. -/
def verifyPayment (cfg : VerifyCfg) (s : MemStore) (now : Int) (id : String)
    (proof : Option String) (opts : Option PaymentVerificationOptions)
    (ledger : LedgerEnv) : Bool × MemStore :=
  match findById s id with
  | none => (false, s)
  | some inv =>
    if inv.expires_at < now then
      (false, forceUpdate s id { status := some .expired })
    else if (match inv.proof_expires_at with
             | some pe => (pe < now : Bool)
             | none => false) then
      (false, s)
    else if inv.status = .paid ∨ inv.status = .used then
      (true, s)
    else
      let acceptPendingBlocks := ((opts.bind (·.acceptPending)).getD cfg.acceptPending)
      let requiredAmount := inv.amount_raw
      let verifySenderB := (opts.bind (·.verifySender)).getD cfg.verifySender
      let allowed := (opts.bind (·.allowedSenders)).orElse fun _ => cfg.allowedSenders
      let verifyTimestampB := !((opts.bind (·.verifyTimestamp)) == some false)
      let pendingHit :=
        if acceptPendingBlocks then
          match ledger.pending with
          | .error _ => none
          | .ok none => none
          | .ok (some blocks) =>
            findPendingMatch proof requiredAmount verifySenderB allowed blocks
        else none
      match pendingHit with
      | some (hash, senderAccount) =>
        (true, forceUpdate s id
          { status := some .paid, tx_hash := some hash,
            paid_at := some now, sender_account := some senderAccount })
      | none =>
        match ledger.history with
        | .error _ => (false, s)
        | .ok historyArray =>
          match historyArray.find?
              (histTxMatches proof requiredAmount acceptPendingBlocks
                verifyTimestampB verifySenderB allowed inv.created_at) with
          | none => (false, s)
          | some tx =>
            if requiredAmount ≤ tx.amount ∧
                (isConfirmedTx tx ∨ (acceptPendingBlocks ∧ isPendingTx tx)) then
              (true, forceUpdate s id
                { status := some .paid, tx_hash := some tx.hash,
                  paid_at := some now, sender_account := some (some tx.account) })
            else (false, s)

/-! ## Other public invoice operations (nano402.ts) -/

/-- The `markUsed` operation: `NotFound` for an absent id, `NotPaid`
whenever the status is anything other than `paid`. -/
def markUsed (s : MemStore) (id : String) : Except StoreErr MemStore :=
  match findById s id with
  | none => .error .notFound
  | some inv =>
    if inv.status ≠ .paid then .error .notPaid
    else .ok (forceUpdate s id { status := some .used })

/-- The `getStatus` operation: passive expiry applies only to `pending`
invoices. -/
def getStatus (s : MemStore) (now : Int) (id : String) :
    Except StoreErr (InvoiceStatus × MemStore) :=
  match findById s id with
  | none => .error .notFound
  | some inv =>
    if inv.status = .pending ∧ inv.expires_at < now then
      .ok (.expired, forceUpdate s id { status := some .expired })
    else .ok (inv.status, s)

/-! ## Invoice creation (nano402.ts: createInvoice)

`createInvoice` suspends at four points: the `findPendingByResource`
probe, `getNextIndex`, the double-check `findPendingByResource`, and
`save`.  The operation is modelled as a small-step program over those
suspension points so that interleavings of concurrent calls can be
examined; a sequential call just runs the four steps back to back. -/

/-- Creation parameters (`CreateInvoiceParams`). -/
structure CreateInvoiceParams where
  resource : String
  amount_xno : String
  ttlSeconds : Option Nat := none
  proofExpirationSeconds : Option Nat := none
  deriving Repr, DecidableEq

/-- Placeholder for the out-of-scope deterministic address derivation
(`deriveNanoAccount(seed, index)` with the instance seed fixed); the
verification engine never inspects the address contents. -/
def deriveAccount (index : Nat) : String := "nano_" ++ toString index

/-- The invoice object literal built by `createInvoice` once the index is
known; `newId` stands for the generated uuid. -/
def mkInvoice (cfg : VerifyCfg) (p : CreateInvoiceParams) (newId : String)
    (now : Int) (index : Nat) (raw : Nat) : Invoice :=
  let ttl := p.ttlSeconds.getD 3600
  let expires_at := now + (ttl : Int) * 1000
  let proofExp := p.proofExpirationSeconds.getD cfg.proofExpirationSeconds
  { id := newId,
    index := index,
    resource := p.resource,
    nano_account := deriveAccount index,
    amount_xno := p.amount_xno,
    amount_raw := raw,
    created_at := now,
    expires_at := expires_at,
    proof_expires_at := some (now + (proofExp : Int) * 1000),
    status := if expires_at < now then .expired else .pending }

/-- Program counter of one in-flight `createInvoice` call, between
suspension points. -/
inductive CreateStep where
  | start
  | afterFind (raw : Nat)
  | afterIndex (raw : Nat) (idx : Nat)
  | afterCheck (raw : Nat) (idx : Nat)
  | done (ret : Invoice)
  | failed
  deriving Repr, DecidableEq

/-- One atomic segment of `createInvoice`: validate + first probe, index
allocation, double-check, then save. -/
def createStep (cfg : VerifyCfg) (p : CreateInvoiceParams) (newId : String)
    (now : Int) : CreateStep → MemStore → CreateStep × MemStore
  | .start, s =>
    match xnoToRawNat p.amount_xno with
    | .error _ => (.failed, s)
    | .ok raw =>
      match findPendingByResource s p.resource now with
      | some existing => (.done existing, s)
      | none => (.afterFind raw, s)
  | .afterFind raw, s =>
    let r := getNextIndex s.index
    (.afterIndex raw r.1, { s with index := r.2 })
  | .afterIndex raw idx, s =>
    match findPendingByResource s p.resource now with
    | some existing => (.done existing, s)
    | none => (.afterCheck raw idx, s)
  | .afterCheck raw idx, s =>
    let inv := mkInvoice cfg p newId now idx raw
    (.done inv, storeSave s inv)
  | st, s => (st, s)

/-- Run one call to completion (four sequential segments): the sequential
`createInvoice`. -/
def createInvoice (cfg : VerifyCfg) (p : CreateInvoiceParams) (newId : String)
    (now : Int) (s : MemStore) : CreateStep × MemStore :=
  let r1 := createStep cfg p newId now .start s
  let r2 := createStep cfg p newId now r1.1 r1.2
  let r3 := createStep cfg p newId now r2.1 r2.2
  createStep cfg p newId now r3.1 r3.2

/-- Id of the invoice a completed create call returned, when finished. -/
def createResultId : CreateStep → Option String
  | .done i => some i.id
  | _ => none

/-- Interleave two in-flight calls under a schedule: `true` steps the
first call, `false` the second. -/
def interleave (fA fB : CreateStep → MemStore → CreateStep × MemStore) :
    List Bool → CreateStep × CreateStep × MemStore →
    CreateStep × CreateStep × MemStore
  | [], st => st
  | c :: rest, (a, b, s) =>
    if c then
      let r := fA a s
      interleave fA fB rest (r.1, b, r.2)
    else
      let r := fB b s
      interleave fA fB rest (a, r.1, r.2)

/-! ## Session / usage gate (verification.ts, guardLogic.ts) -/

/-- The `isSessionValid` helper.  It is declared over an object with
optional `paid_at` / `expires_at`, although every `Invoice` carries a
required `expires_at`.  With no session duration the invoice expiry
governs; otherwise the session window starts at `paid_at`. -/
def isSessionValid (paid_at : Option Int) (expires_at : Option Int)
    (sessionDuration : Option Nat) (now : Int) : Bool :=
  match paid_at with
  | none => false
  | some pa =>
    match sessionDuration with
    | none =>
      match expires_at with
      | none => true
      | some ea => now < ea
    | some d => now < pa + (d : Int) * 1000

/-- The `isUsageExceeded` helper: a missing cap means unlimited usage. -/
def isUsageExceeded (access_count : Option Nat) (maxUsage : Option Nat) : Bool :=
  match maxUsage with
  | none => false
  | some m => m ≤ access_count.getD 0

/-- The `shouldGrantAccess` closure inside `handleGuardRequest`. -/
def shouldGrantAccess (invoice : Option Invoice) (resourcePath : String)
    (sessionDuration maxUsage : Option Nat) (now : Int) : Bool :=
  match invoice with
  | none => false
  | some inv =>
    if inv.resource ≠ resourcePath then false
    else if inv.status ≠ .paid ∧ inv.status ≠ .used then false
    else
      isSessionValid inv.paid_at (some inv.expires_at) sessionDuration now &&
        !isUsageExceeded inv.access_count maxUsage

/-- Stated from the spec wording of the session/usage gate, for
comparison with the code-derived `shouldGrantAccess`: sessionValid =
paid_at is set AND (sessionDuration undefined ? now < expires_at :
now < paid_at + sessionDuration), usageOk = maxUsage undefined OR
access_count < maxUsage (durations in seconds, clock in ms). -/
def specSessionUsageGate (inv : Invoice) (sessionDuration maxUsage : Option Nat)
    (now : Int) : Prop :=
  (inv.paid_at.isSome ∧
    (match sessionDuration with
     | none => now < inv.expires_at
     | some d =>
       match inv.paid_at with
       | some pa => now < pa + (d : Int) * 1000
       | none => False)) ∧
  (match maxUsage with
   | none => True
   | some m => inv.access_count.getD 0 < m)

/-! ## RPC retry loop (rpcClient.ts: rpcCall) -/

/-- What a single attempt throws when it fails: an `RpcError` (HTTP
non-success status or application-level error with no status), an
`RpcTimeoutError`, or some other transport error. -/
inductive RpcFailure where
  | rpc (statusCode : Option Nat)
  | timeout
  | transport
  deriving Repr, DecidableEq

/-- The `lastError instanceof RpcError && lastError.statusCode && 400 <=
statusCode < 500` no-retry test (a zero status code is falsy, matching
the JS guard, though it is also outside the 4xx range). -/
def nonRetryable : RpcFailure → Bool
  | .rpc (some c) => !(c == 0) && decide (400 ≤ c) && decide (c < 500)
  | _ => false

/-- The `rpcCall` retry loop from attempt number `attempt` on, driven by
the outcome each attempt would produce.  Returns the final outcome and the
list of back-off delays actually slept. -/
def rpcLoop {T : Type} (retries retryDelay : Nat)
    (out : Nat → Except RpcFailure T) (attempt : Nat) (fuel : Nat) :
    Except RpcFailure T × List Nat :=
  match fuel with
  | 0 => (out attempt, [])
  | fuel + 1 =>
    match out attempt with
    | .ok v => (.ok v, [])
    | .error e =>
      if nonRetryable e then (.error e, [])
      else if attempt = retries then (.error e, [])
      else
        let r := rpcLoop retries retryDelay out (attempt + 1) fuel
        (r.1, retryDelay * 2 ^ attempt :: r.2)

/-- The full `rpcCall`: start at attempt 0 with enough fuel for
`retries + 1` attempts. -/
def rpcCall {T : Type} (retries retryDelay : Nat)
    (out : Nat → Except RpcFailure T) : Except RpcFailure T × List Nat :=
  rpcLoop retries retryDelay out 0 (retries + 1)

/-- Constructor configuration of `NanoRpcClient` (optional fields). -/
structure NanoRpcClientConfig where
  timeout : Option Nat := none
  retries : Option Nat := none
  retryDelay : Option Nat := none
  deriving Repr, DecidableEq

/-- The resolved client settings. -/
structure NanoRpcClientSettings where
  timeout : Nat
  retries : Nat
  retryDelay : Nat
  deriving Repr, DecidableEq

/-- The constructor defaulting: `timeout ?? 10000`, `retries ?? 3`,
`retryDelay ?? 1000`. -/
def mkNanoRpcClient (cfg : NanoRpcClientConfig) : NanoRpcClientSettings :=
  { timeout := cfg.timeout.getD 10000,
    retries := cfg.retries.getD 3,
    retryDelay := cfg.retryDelay.getD 1000 }

theorem nextFreeAux_spec (fuel : Nat) :
    ∀ (l : List Nat) (start : Nat), l.length ≤ fuel →
      start ≤ nextFreeAux fuel l start ∧ nextFreeAux fuel l start ∉ l := by
  induction fuel with
  | zero =>
    intro l start hl
    have : l = [] := List.length_eq_zero.mp (Nat.le_zero.mp hl)
    subst this
    simp [nextFreeAux]
  | succ fuel ih =>
    intro l start hl
    rw [nextFreeAux]
    by_cases h : start ∈ l
    · rw [if_pos h]
      have hne : l ≠ [] := by intro hz; subst hz; simp at h
      have hlen := List.length_erase_of_mem h
      have hpos : 0 < l.length := List.length_pos.mpr hne
      obtain ⟨ih1, ih2⟩ := ih (l.erase start) (start + 1) (by omega)
      refine ⟨by omega, fun hmem => ih2 ?_⟩
      have hne2 : nextFreeAux fuel (l.erase start) (start + 1) ≠ start := by omega
      exact (List.mem_erase_of_ne hne2).mpr hmem
    · rw [if_neg h]
      exact ⟨le_refl _, h⟩

theorem nextFree_spec (l : List Nat) (start : Nat) :
    start ≤ nextFree l start ∧ nextFree l start ∉ l :=
  nextFreeAux_spec l.length l start (le_refl _)

theorem getNextIndex_not_mem (s : IndexState) : (getNextIndex s).1 ∉ s.indexes :=
  (nextFree_spec s.indexes (s.highestIndex + 1).toNat).2

theorem getNextIndex_gt_highest (s : IndexState) (h : -1 ≤ s.highestIndex) :
    s.highestIndex < ((getNextIndex s).1 : Int) := by
  have h1 := (nextFree_spec s.indexes (s.highestIndex + 1).toNat).1
  have h2 : ((s.highestIndex + 1).toNat : Int) = s.highestIndex + 1 := by
    rw [Int.toNat_of_nonneg]; omega
  have h3 : ((s.highestIndex + 1).toNat : Int) ≤ ((getNextIndex s).1 : Int) := by
    exact_mod_cast h1
  omega

theorem getNextIndex_snd (s : IndexState) (h : -1 ≤ s.highestIndex) :
    (getNextIndex s).2.indexes = (getNextIndex s).1 :: s.indexes ∧
    (getNextIndex s).2.highestIndex = ((getNextIndex s).1 : Int) := by
  have hnm := getNextIndex_not_mem s
  have hgt := getNextIndex_gt_highest s h
  simp only [getNextIndex, markIndexUsed] at *
  rw [if_neg hnm]
  exact ⟨rfl, by simp; omega⟩

theorem runAllocator_inv (k : Nat) (s : IndexState) (h : -1 ≤ s.highestIndex) :
    (∀ x ∈ (runAllocator s k).1, s.highestIndex < (x : Int) ∧ x ∉ s.indexes) ∧
    List.Chain' (· < ·) (runAllocator s k).1 ∧
    s.highestIndex ≤ (runAllocator s k).2.highestIndex ∧
    (∀ x ∈ (runAllocator s k).1, (x : Int) ≤ (runAllocator s k).2.highestIndex) ∧
    (∀ i ∈ s.indexes, i ∈ (runAllocator s k).2.indexes) := by
  induction k generalizing s with
  | zero => simp [runAllocator]
  | succ k ih =>
    obtain ⟨hidx, hhigh⟩ := getNextIndex_snd s h
    have hgt := getNextIndex_gt_highest s h
    set n := (getNextIndex s).1 with hn
    set s1 := (getNextIndex s).2 with hs1
    have h1 : -1 ≤ s1.highestIndex := by rw [hhigh]; omega
    obtain ⟨ih1, ih2, ih3, ih4, ih5⟩ := ih s1 h1
    have hrun : runAllocator s (k + 1) =
        (n :: (runAllocator s1 k).1, (runAllocator s1 k).2) := by
      simp [runAllocator]
    rw [hrun]
    dsimp only
    refine ⟨?_, ?_, ?_, ?_, ?_⟩
    · intro x hx
      rcases List.mem_cons.mp hx with rfl | hx
      · exact ⟨hgt, getNextIndex_not_mem s⟩
      · have := ih1 x hx
        rw [hhigh] at this
        refine ⟨by omega, fun hmem => this.2 ?_⟩
        rw [hidx]
        exact List.mem_cons_of_mem _ hmem
    · rw [List.chain'_cons']
      refine ⟨?_, ih2⟩
      intro y hy
      have hmem : y ∈ (runAllocator s1 k).1 := List.mem_of_mem_head? hy
      have := (ih1 y hmem).1
      rw [hhigh] at this
      exact_mod_cast this
    · omega
    · intro x hx
      rcases List.mem_cons.mp hx with rfl | hx
      · rw [← hhigh]; exact ih3
      · exact ih4 x hx
    · intro i hi
      apply ih5
      rw [hidx]
      exact List.mem_cons_of_mem _ hi

theorem restart_id (s : IndexState) : loadIndexFile (persistIndexFile s) = s := rfl

/-- C3: index allocator monotonicity.  For any starting state (including one
pre-seeded with externally marked-used indexes) with a well-formed watermark,
any sequence of `getNextIndex` calls — interrupted at any point by a restart
that reloads the persisted file — returns strictly increasing values, none of
which was ever in the initial used set (hence no repeats, and nothing below
an already-issued index even after the reload). -/
theorem allocator_monotone (s : IndexState) (j m : Nat) (h : -1 ≤ s.highestIndex) :
    List.Chain' (· < ·)
      ((runAllocator s j).1 ++
        (runAllocator (loadIndexFile (persistIndexFile (runAllocator s j).2)) m).1) ∧
    ∀ x ∈ (runAllocator s j).1 ++
        (runAllocator (loadIndexFile (persistIndexFile (runAllocator s j).2)) m).1,
      x ∉ s.indexes := by
  rw [restart_id]
  obtain ⟨h1, h2, h3, h4, h5⟩ := runAllocator_inv j s h
  have hwf : -1 ≤ (runAllocator s j).2.highestIndex := by omega
  obtain ⟨g1, g2, g3, g4, g5⟩ := runAllocator_inv m (runAllocator s j).2 hwf
  constructor
  · rw [List.chain'_append]
    refine ⟨h2, g2, ?_⟩
    intro x hx y hy
    have hxm : x ∈ (runAllocator s j).1 := List.mem_of_mem_getLast? hx
    have hym : y ∈ (runAllocator (runAllocator s j).2 m).1 := List.mem_of_mem_head? hy
    have hxle := h4 x hxm
    have hygt := (g1 y hym).1
    exact_mod_cast lt_of_le_of_lt hxle hygt
  · intro x hx
    rcases List.mem_append.mp hx with hx | hx
    · exact (h1 x hx).2
    · intro hmem
      exact (g1 x hx).2 (h5 x hmem)

theorem assocGet_assocSet_self {α : Type} (l : List (String × α)) (k : String)
    (v : α) : assocGet (assocSet l k v) k = some v := by
  induction l with
  | nil => simp [assocGet, assocSet]
  | cons p t ih =>
    by_cases h : p.1 == k
    · simp [assocSet, h, assocGet]
    · simp only [assocSet]
      rw [if_neg (by simpa using h)]
      simpa [assocGet, List.find?, h] using ih

theorem findById_forceUpdate (s : MemStore) (id : String) (inv : Invoice)
    (u : InvoiceUpdate) (h : findById s id = some inv) :
    findById (forceUpdate s id u) id = some (applyUpdate inv u) := by
  unfold findById at h ⊢
  unfold forceUpdate storeUpdate
  rw [h]
  simpa using assocGet_assocSet_self s.invoices id (applyUpdate inv u)

/-- C6: for an invoice whose status is paid or used and whose resource
matches the requested path, the guard helper grants access exactly when
the spec-side session/usage formula holds: paid_at is set, the session
window (invoice expiry when no sessionDuration, else paid_at plus the
duration) has not elapsed, and the usage cap (when set) is not reached. -/
theorem guard_session_usage_gate (inv : Invoice) (r : String)
    (sd mu : Option Nat) (now : Int) (hres : inv.resource = r)
    (hst : inv.status = .paid ∨ inv.status = .used) :
    shouldGrantAccess (some inv) r sd mu now = true ↔
      specSessionUsageGate inv sd mu now := by
  subst hres
  unfold shouldGrantAccess specSessionUsageGate isSessionValid isUsageExceeded
  rcases hst with h | h <;>
    · simp only [h]
      cases hpa : inv.paid_at <;> cases sd <;> cases mu <;>
        simp [hpa]

/-- C6 witness: the gate equivalence at a concrete paid invoice with a
session duration and a usage cap. -/
theorem guard_session_usage_gate_witness :
    shouldGrantAccess
        (some { id := "I", index := 0, resource := "r", nano_account := "n",
                amount_xno := "1", amount_raw := 10 ^ 30, created_at := 0,
                expires_at := 3600000, status := .paid, paid_at := some 1000,
                access_count := some 1 })
        "r" (some 60) (some 3) 2000 = true ↔
      specSessionUsageGate
        { id := "I", index := 0, resource := "r", nano_account := "n",
          amount_xno := "1", amount_raw := 10 ^ 30, created_at := 0,
          expires_at := 3600000, status := .paid, paid_at := some 1000,
          access_count := some 1 }
        (some 60) (some 3) 2000 :=
  guard_session_usage_gate _ "r" (some 60) (some 3) 2000 rfl (Or.inl rfl)

/-- C9 counterexample: on an invoice whose status is already `used`,
`markUsed` does not succeed idempotently; it raises
`InvoiceNotPaidError`. -/
theorem markUsed_on_used_raises :
    markUsed
      { invoices :=
          [("I", { id := "I", index := 0, resource := "r", nano_account := "n",
                   amount_xno := "1", amount_raw := 10 ^ 30, created_at := 0,
                   expires_at := 3600000, status := .used,
                   paid_at := some 10 })],
        resourceIndex := [("r", "I")],
        index := IndexState.empty } "I" = .error .notPaid := by
  rfl

/-- C9 (amended): `markUsed` raises `NotFound` exactly when the id is
absent; it raises `NotPaid` whenever the invoice's status is anything
other than `paid` — including an already-`used` invoice, whose callers
swallow the error; it succeeds only from `paid`, setting the status to
`used` and preserving `paid_at`. -/
theorem markUsed_characterization (s : MemStore) (id : String) :
    (findById s id = none → markUsed s id = .error .notFound) ∧
    (∀ inv, findById s id = some inv → inv.status ≠ .paid →
      markUsed s id = .error .notPaid) ∧
    (∀ inv, findById s id = some inv → inv.status = .paid →
      ∃ s2, markUsed s id = .ok s2 ∧
        ∃ inv2, findById s2 id = some inv2 ∧ inv2.status = .used ∧
          inv2.paid_at = inv.paid_at) := by
  refine ⟨?_, ?_, ?_⟩
  · intro h
    unfold markUsed
    rw [h]
  · intro inv h hne
    unfold markUsed
    rw [h]
    simp [hne]
  · intro inv h hp
    refine ⟨forceUpdate s id { status := some .used }, ?_, ?_⟩
    · unfold markUsed
      rw [h]
      simp [hp]
    · exact ⟨applyUpdate inv { status := some .used },
        findById_forceUpdate s id inv _ h, rfl, rfl⟩

/-- C9 witness: the characterization applied to a concrete store holding
one paid invoice. -/
theorem markUsed_characterization_witness :
    markUsed
      { invoices :=
          [("I", { id := "I", index := 0, resource := "r", nano_account := "n",
                   amount_xno := "1", amount_raw := 10 ^ 30, created_at := 0,
                   expires_at := 3600000, status := .paid,
                   paid_at := some 10 })],
        resourceIndex := [("r", "I")],
        index := IndexState.empty } "missing" = .error .notFound :=
  (markUsed_characterization _ "missing").1 rfl

/-- C10: `verifyPayment` is total over unknown ids and ledger failure —
an unresolved id yields `false` with the store untouched, and when the
call reaches the ledger (invoice present, unexpired, proof window open,
not already settled) and both the pending and the history query raise,
it yields `false` with the store untouched rather than propagating the
error. -/
theorem verify_total_on_failure (cfg : VerifyCfg) (s : MemStore) (now : Int)
    (id : String) (proof : Option String)
    (opts : Option PaymentVerificationOptions) (ledger : LedgerEnv) :
    (findById s id = none →
      verifyPayment cfg s now id proof opts ledger = (false, s)) ∧
    (∀ inv, findById s id = some inv →
      ¬(inv.expires_at < now) →
      (∀ pe, inv.proof_expires_at = some pe → ¬(pe < now)) →
      inv.status ≠ .paid → inv.status ≠ .used →
      ledger.pending = .error () → ledger.history = .error () →
      verifyPayment cfg s now id proof opts ledger = (false, s)) := by
  constructor
  · intro h
    unfold verifyPayment
    rw [h]
  · intro inv h hexp hpe hp hu hlp hlh
    unfold verifyPayment
    rw [h]
    dsimp only
    rw [if_neg hexp]
    have h2 : (match inv.proof_expires_at with
               | some pe => decide (pe < now)
               | none => false) = false := by
      cases hv : inv.proof_expires_at with
      | none => rfl
      | some pe => simp [hpe pe hv]
    rw [h2]
    simp only [Bool.false_eq_true, if_false]
    rw [if_neg (show ¬(inv.status = .paid ∨ inv.status = .used) by
      simp [hp, hu])]
    simp only [hlp, hlh]
    cases hb : (opts.bind fun o => o.acceptPending).getD cfg.acceptPending <;>
      simp [hb]

/-- C10 witness: both branches at concrete inputs — a missing id, and a
pending invoice whose ledger queries both raise. -/
theorem verify_total_on_failure_witness :
    verifyPayment {} MemStore.empty 0 "missing" none none
        { pending := .error (), history := .error () } =
      (false, MemStore.empty) ∧
    verifyPayment {}
        { invoices :=
            [("I", { id := "I", index := 0, resource := "r",
                     nano_account := "n", amount_xno := "1",
                     amount_raw := 10 ^ 30, created_at := 0,
                     expires_at := 3600000, status := .pending,
                     proof_expires_at := some 3600000 })],
          resourceIndex := [("r", "I")],
          index := IndexState.empty } 5 "I" none none
        { pending := .error (), history := .error () } =
      (false,
        { invoices :=
            [("I", { id := "I", index := 0, resource := "r",
                     nano_account := "n", amount_xno := "1",
                     amount_raw := 10 ^ 30, created_at := 0,
                     expires_at := 3600000, status := .pending,
                     proof_expires_at := some 3600000 })],
          resourceIndex := [("r", "I")],
          index := IndexState.empty }) :=
  ⟨(verify_total_on_failure {} MemStore.empty 0 "missing" none none
      { pending := .error (), history := .error () }).1 rfl,
   (verify_total_on_failure _ _ 5 "I" none none _).2 _ rfl
     (by decide) (by intro pe hpe; cases hpe; decide)
     (by decide) (by decide) rfl rfl⟩

/-- C3 witness: starting from a fresh store, issue eight indexes (0..7),
restart (reload the persisted file), issue one more: the whole issued
sequence is strictly increasing and avoids the (empty) initial used set;
concretely the post-restart allocation returns 8, not 0 or 7. -/
theorem allocator_monotone_witness :
    (List.Chain' (· < ·)
      ((runAllocator IndexState.empty 8).1 ++
        (runAllocator (loadIndexFile (persistIndexFile (runAllocator IndexState.empty 8).2)) 1).1) ∧
     ∀ x ∈ (runAllocator IndexState.empty 8).1 ++
        (runAllocator (loadIndexFile (persistIndexFile (runAllocator IndexState.empty 8).2)) 1).1,
       x ∉ IndexState.empty.indexes) ∧
    (runAllocator (loadIndexFile (persistIndexFile (runAllocator IndexState.empty 8).2)) 1).1 = [8] := by
  refine ⟨allocator_monotone IndexState.empty 8 1 (by decide), ?_⟩
  decide

/-- C1 counterexample: a `paid` invoice whose `expires_at` has passed —
`verifyPayment` returns false (the expiry check runs before the
paid/used short-circuit), refuting unconditional idempotence on settled
invoices. -/
theorem verify_settled_after_expiry_returns_false :
    (verifyPayment {}
      { invoices :=
          [("I", { id := "I", index := 0, resource := "r", nano_account := "n",
                   amount_xno := "1", amount_raw := 10 ^ 30, created_at := 0,
                   expires_at := 10, status := .paid, tx_hash := some "H",
                   paid_at := some 5 })],
        resourceIndex := [("r", "I")],
        index := IndexState.empty } 20 "I" none none
      { pending := .error (), history := .error () }).1 = false := by
  decide

/-- C1 (amended): for a `paid` or `used` invoice whose `expires_at` has
not passed at call time and whose `proof_expires_at` window (when set) is
still open, `verifyPayment` returns true — with or without a proof hash,
under any ledger responses — and leaves the store (hence `paid_at`)
untouched, so a second call returns true again. -/
theorem verify_idempotent_on_settled (cfg : VerifyCfg) (s : MemStore)
    (id : String) (inv : Invoice) (proof : Option String)
    (opts : Option PaymentVerificationOptions) (l1 l2 : LedgerEnv)
    (now1 now2 : Int)
    (hfind : findById s id = some inv)
    (hst : inv.status = .paid ∨ inv.status = .used)
    (he1 : ¬(inv.expires_at < now1)) (he2 : ¬(inv.expires_at < now2))
    (hq1 : ∀ pe, inv.proof_expires_at = some pe → ¬(pe < now1))
    (hq2 : ∀ pe, inv.proof_expires_at = some pe → ¬(pe < now2)) :
    verifyPayment cfg s now1 id proof opts l1 = (true, s) ∧
    verifyPayment cfg s now2 id proof opts l2 = (true, s) := by
  have single : ∀ (now : Int) (l : LedgerEnv), ¬(inv.expires_at < now) →
      (∀ pe, inv.proof_expires_at = some pe → ¬(pe < now)) →
      verifyPayment cfg s now id proof opts l = (true, s) := by
    intro now l he hq
    unfold verifyPayment
    rw [hfind]
    dsimp only
    rw [if_neg he]
    have h2 : (match inv.proof_expires_at with
               | some pe => decide (pe < now)
               | none => false) = false := by
      cases hv : inv.proof_expires_at with
      | none => rfl
      | some pe => simp [hq pe hv]
    rw [h2]
    simp only [Bool.false_eq_true, if_false]
    rw [if_pos hst]
  exact ⟨single now1 l1 he1 hq1, single now2 l2 he2 hq2⟩

/-- C1 witness: the amended idempotence at a concrete unexpired paid
invoice, for two successive calls at different clocks and different
ledger responses. -/
theorem verify_idempotent_on_settled_witness :
    verifyPayment {}
        { invoices :=
            [("I", { id := "I", index := 0, resource := "r",
                     nano_account := "n", amount_xno := "1",
                     amount_raw := 10 ^ 30, created_at := 0,
                     expires_at := 3600000, status := .paid,
                     tx_hash := some "H", paid_at := some 5,
                     proof_expires_at := some 3600000 })],
          resourceIndex := [("r", "I")],
          index := IndexState.empty } 100 "I" (some "H") none
        { pending := .error (), history := .error () } =
      (true,
        { invoices :=
            [("I", { id := "I", index := 0, resource := "r",
                     nano_account := "n", amount_xno := "1",
                     amount_raw := 10 ^ 30, created_at := 0,
                     expires_at := 3600000, status := .paid,
                     tx_hash := some "H", paid_at := some 5,
                     proof_expires_at := some 3600000 })],
          resourceIndex := [("r", "I")],
          index := IndexState.empty }) :=
  (verify_idempotent_on_settled {}
    { invoices :=
        [("I", { id := "I", index := 0, resource := "r",
                 nano_account := "n", amount_xno := "1",
                 amount_raw := 10 ^ 30, created_at := 0,
                 expires_at := 3600000, status := .paid,
                 tx_hash := some "H", paid_at := some 5,
                 proof_expires_at := some 3600000 })],
      resourceIndex := [("r", "I")],
      index := IndexState.empty } "I"
    { id := "I", index := 0, resource := "r",
      nano_account := "n", amount_xno := "1",
      amount_raw := 10 ^ 30, created_at := 0,
      expires_at := 3600000, status := .paid,
      tx_hash := some "H", paid_at := some 5,
      proof_expires_at := some 3600000 } (some "H") none
    { pending := .error (), history := .error () }
    { pending := .error (), history := .error () } 100 200 rfl
    (Or.inl rfl) (by decide) (by decide)
    (by intro pe hpe; cases hpe; decide)
    (by intro pe hpe; cases hpe; decide)).1

/-- C2 failing trace: an invoice created at time 0 (ttl 3600 s) is paid
through a matching pending ledger block at time 1000; a later
`verifyPayment` call at time 4000000 — past `expires_at` — overwrites the
`paid` status with `expired`, a backward transition along the documented
order (it also strands `paid_at` on a non-settled status). -/
theorem verify_paid_then_expired_backward :
    ((findById
        (verifyPayment {}
          (verifyPayment {}
            (createInvoice {} { resource := "r", amount_xno := "0.1" } "A" 0
              MemStore.empty).2
            1000 "A" none none
            { pending := .ok (some [("H", .simple (10 ^ 29))]),
              history := .ok [] }).2
          4000000 "A" none none
          { pending := .error (), history := .error () }).2
        "A").map fun i => i.status) = some .expired ∧
    ((findById
        (verifyPayment {}
          (createInvoice {} { resource := "r", amount_xno := "0.1" } "A" 0
            MemStore.empty).2
          1000 "A" none none
          { pending := .ok (some [("H", .simple (10 ^ 29))]),
            history := .ok [] }).2
        "A").map fun i => (i.status, i.paid_at)) = some (.paid, some 1000) := by
  constructor
  · decide
  · decide

/-- C4 failing interleaving: two concurrent `createInvoice` calls for the
same resource, alternating at the four suspension points
(probe / index / double-check / save), both observe no pending invoice,
both save, and each caller receives its own invoice id — two pending
invoices for one resource, violating find-or-create uniqueness. -/
theorem create_race_two_invoices :
    createResultId
        (interleave
          (createStep {} { resource := "r", amount_xno := "0.1" } "A" 0)
          (createStep {} { resource := "r", amount_xno := "0.1" } "B" 0)
          [true, false, true, false, true, false, true, false]
          (.start, .start, MemStore.empty)).1 = some "A" ∧
    createResultId
        (interleave
          (createStep {} { resource := "r", amount_xno := "0.1" } "A" 0)
          (createStep {} { resource := "r", amount_xno := "0.1" } "B" 0)
          [true, false, true, false, true, false, true, false]
          (.start, .start, MemStore.empty)).2.1 = some "B" ∧
    ((findById
        (interleave
          (createStep {} { resource := "r", amount_xno := "0.1" } "A" 0)
          (createStep {} { resource := "r", amount_xno := "0.1" } "B" 0)
          [true, false, true, false, true, false, true, false]
          (.start, .start, MemStore.empty)).2.2 "A").map
      fun i => (i.resource, i.status)) = some ("r", .pending) ∧
    ((findById
        (interleave
          (createStep {} { resource := "r", amount_xno := "0.1" } "A" 0)
          (createStep {} { resource := "r", amount_xno := "0.1" } "B" 0)
          [true, false, true, false, true, false, true, false]
          (.start, .start, MemStore.empty)).2.2 "B").map
      fun i => (i.resource, i.status)) = some ("r", .pending) := by
  refine ⟨?_, ?_, ?_, ?_⟩ <;> decide

/-- C5 counterexample: with the empty string supplied as proof hash
(falsy in JS), the exactness guard is skipped entirely — `verifyPayment`
accepts a pending block with hash "H" and persists `tx_hash = "H"`,
which differs from the supplied proof. -/
theorem proof_hash_empty_not_exact :
    (verifyPayment {}
      { invoices :=
          [("I", { id := "I", index := 0, resource := "r", nano_account := "n",
                   amount_xno := "0.1", amount_raw := 10 ^ 29,
                   created_at := 0, expires_at := 3600000,
                   status := .pending })],
        resourceIndex := [("r", "I")],
        index := IndexState.empty } 100 "I" (some "") none
      { pending := .ok (some [("H", .simple (10 ^ 29))]),
        history := .ok [] }).1 = true ∧
    ((findById
        (verifyPayment {}
          { invoices :=
              [("I", { id := "I", index := 0, resource := "r",
                       nano_account := "n", amount_xno := "0.1",
                       amount_raw := 10 ^ 29, created_at := 0,
                       expires_at := 3600000, status := .pending })],
            resourceIndex := [("r", "I")],
            index := IndexState.empty } 100 "I" (some "") none
          { pending := .ok (some [("H", .simple (10 ^ 29))]),
            history := .ok [] }).2 "I").map fun i => i.tx_hash) =
      some (some "H") := by
  constructor
  · decide
  · decide

theorem findPendingMatch_hash (p : String) (hp : p ≠ "") (req : Nat)
    (vs : Bool) (allowed : Option (List String)) :
    ∀ (blocks : List (String × PendingAmount)) (hash : String)
      (sa : Option String),
      findPendingMatch (some p) req vs allowed blocks = some (hash, sa) →
      hash = p := by
  intro blocks
  induction blocks with
  | nil => intro hash sa h; simp [findPendingMatch] at h
  | cons b rest ih =>
    intro hash sa h
    obtain ⟨bh, be⟩ := b
    simp only [findPendingMatch] at h
    have htr : jsTruthy p = true := by simpa [jsTruthy] using hp
    by_cases hhp : bh = p
    · subst hhp
      simp only [htr, bne_self_eq_false, Bool.and_false, Bool.false_eq_true,
        if_false] at h
      split at h
      · exact ih _ _ h
      · split at h
        · exact ih _ _ h
        · simp only [Option.some.injEq, Prod.mk.injEq] at h
          exact h.1.symm
    · have hne : (bh != p) = true := by simpa using hhp
      simp only [htr, hne, Bool.and_self, if_true] at h
      exact ih _ _ h

/-- C5 (amended): for every nonempty supplied proof hash, if
`verifyPayment` accepts and persists a payment for a not-yet-settled
invoice, the persisted `tx_hash` equals the supplied proof exactly —
candidates with a different hash are skipped outright in both the
pending-block and the history scan.  (The empty string, being falsy, is
treated as no proof.) -/
theorem proof_hash_exact (cfg : VerifyCfg) (s : MemStore) (now : Int)
    (id : String) (inv : Invoice) (p : String)
    (opts : Option PaymentVerificationOptions) (ledger : LedgerEnv)
    (s2 : MemStore)
    (hp : p ≠ "")
    (hfind : findById s id = some inv)
    (hpaid : inv.status ≠ .paid) (hused : inv.status ≠ .used)
    (hres : verifyPayment cfg s now id (some p) opts ledger = (true, s2)) :
    ∃ inv2, findById s2 id = some inv2 ∧ inv2.status = .paid ∧
      inv2.tx_hash = some p := by
  unfold verifyPayment at hres
  rw [hfind] at hres
  dsimp only at hres
  split at hres
  · simp at hres
  · split at hres
    · simp at hres
    · split at hres
      · rename_i hor
        exact absurd hor (by simp [hpaid, hused])
      · split at hres
        · rename_i hash sa heq
          have hhash : hash = p := by
            split at heq
            · split at heq
              · simp at heq
              · simp at heq
              · exact findPendingMatch_hash p hp _ _ _ _ _ _ heq
            · simp at heq
          have hs2 := congrArg Prod.snd hres
          dsimp only at hs2
          subst hs2
          refine ⟨_, findById_forceUpdate s id inv _ hfind, rfl, ?_⟩
          simp [applyUpdate, hhash]
        · split at hres
          · simp at hres
          · split at hres
            · simp at hres
            · rename_i tx htx
              split at hres
              · have hmatch := List.find?_some htx
                have htr : jsTruthy p = true := by simpa [jsTruthy] using hp
                have hhash : tx.hash = p := by
                  unfold histTxMatches at hmatch
                  simp only [htr, Bool.not_true, Bool.false_or,
                    Bool.and_eq_true, beq_iff_eq] at hmatch
                  exact hmatch.1.1.1.1.1
                have hs2 := congrArg Prod.snd hres
                dsimp only at hs2
                subst hs2
                refine ⟨_, findById_forceUpdate s id inv _ hfind, rfl, ?_⟩
                simp [applyUpdate, hhash]
              · simp at hres

/-- C5 witness: the exactness theorem at a concrete pending invoice paid
through a pending block whose hash equals the supplied proof "H". -/
theorem proof_hash_exact_witness :
    ∃ inv2,
      findById
        (verifyPayment {}
          { invoices :=
              [("I", { id := "I", index := 0, resource := "r",
                       nano_account := "n", amount_xno := "0.1",
                       amount_raw := 10 ^ 29, created_at := 0,
                       expires_at := 3600000, status := .pending })],
            resourceIndex := [("r", "I")],
            index := IndexState.empty } 100 "I" (some "H") none
          { pending := .ok (some [("H", .simple (10 ^ 29))]),
            history := .ok [] }).2 "I" = some inv2 ∧
      inv2.status = .paid ∧ inv2.tx_hash = some "H" :=
  proof_hash_exact {}
    { invoices :=
        [("I", { id := "I", index := 0, resource := "r",
                 nano_account := "n", amount_xno := "0.1",
                 amount_raw := 10 ^ 29, created_at := 0,
                 expires_at := 3600000, status := .pending })],
      resourceIndex := [("r", "I")],
      index := IndexState.empty } 100 "I"
    { id := "I", index := 0, resource := "r",
      nano_account := "n", amount_xno := "0.1",
      amount_raw := 10 ^ 29, created_at := 0,
      expires_at := 3600000, status := .pending } "H" none
    { pending := .ok (some [("H", .simple (10 ^ 29))]), history := .ok [] }
    (verifyPayment {}
      { invoices :=
          [("I", { id := "I", index := 0, resource := "r",
                   nano_account := "n", amount_xno := "0.1",
                   amount_raw := 10 ^ 29, created_at := 0,
                   expires_at := 3600000, status := .pending })],
        resourceIndex := [("r", "I")],
        index := IndexState.empty } 100 "I" (some "H") none
      { pending := .ok (some [("H", .simple (10 ^ 29))]),
        history := .ok [] }).2
    (by decide) rfl (by decide) (by decide) (by decide)

theorem rpcLoop_exhausted {T : Type} (retries base : Nat)
    (err : Nat → RpcFailure) (out : Nat → Except RpcFailure T)
    (hout : ∀ k, k ≤ retries → out k = .error (err k))
    (hretry : ∀ k, k ≤ retries → nonRetryable (err k) = false) :
    ∀ fuel attempt, attempt + fuel = retries + 1 → 1 ≤ fuel →
      rpcLoop retries base out attempt fuel =
        (.error (err retries),
          (List.range' attempt (fuel - 1)).map fun k => base * 2 ^ k) := by
  intro fuel
  induction fuel with
  | zero => intro attempt h h1; omega
  | succ f ih =>
    intro attempt h _
    have hale : attempt ≤ retries := by omega
    rw [rpcLoop]
    rw [hout attempt hale]
    simp only [hretry attempt hale, Bool.false_eq_true, if_false]
    by_cases har : attempt = retries
    · subst har
      have hf : f = 0 := by omega
      subst hf
      simp [List.range']
    · rw [if_neg har]
      have hrec := ih (attempt + 1) (by omega) (by omega)
      rw [hrec]
      have hsp : List.range' attempt (f + 1 - 1) =
          attempt :: List.range' (attempt + 1) (f - 1) := by
        have hf : f + 1 - 1 = (f - 1) + 1 := by omega
        rw [hf, List.range'_succ]
      rw [hsp]
      simp

/-- C8: the RPC retry policy.  An error carrying a 4xx status on the
first attempt is rethrown immediately with no back-off sleeps; when every
attempt fails with a retryable error (timeout, 5xx-style or transport),
the call performs `retries` retries and then throws the last attempt's
error, having slept `retryDelay * 2 ^ k` before retry number `k`; and the
constructor defaults are 3 retries, a 1000 ms base delay and a 10000 ms
timeout. -/
theorem rpc_retry_policy {T : Type} (retries base : Nat) (c : Nat)
    (out4 out : Nat → Except RpcFailure T) (err : Nat → RpcFailure)
    (h40 : out4 0 = .error (.rpc (some c))) (h4a : 400 ≤ c) (h4b : c < 500)
    (hout : ∀ k, k ≤ retries → out k = .error (err k))
    (hretry : ∀ k, k ≤ retries → nonRetryable (err k) = false) :
    rpcCall retries base out4 = (.error (.rpc (some c)), []) ∧
    rpcCall retries base out =
      (.error (err retries), (List.range retries).map fun k => base * 2 ^ k) ∧
    mkNanoRpcClient {} =
      { timeout := 10000, retries := 3, retryDelay := 1000 } := by
  refine ⟨?_, ?_, rfl⟩
  · unfold rpcCall
    rw [rpcLoop, h40]
    have hnr : nonRetryable (.rpc (some c)) = true := by
      have hc0 : c ≠ 0 := by omega
      simp [nonRetryable, hc0, h4a, h4b]
    simp [hnr]
  · unfold rpcCall
    rw [rpcLoop_exhausted retries base err out hout hretry (retries + 1) 0
      (by omega) (by omega)]
    simp [List.range_eq_range']

/-- C8 witness: with the default 3 retries and 1000 ms base delay, a 404
on the first attempt is thrown at once with no sleeps, while persistent
timeouts produce exactly the back-off trace [1000, 2000, 4000] before the
timeout is rethrown. -/
theorem rpc_retry_policy_witness :
    rpcCall 3 1000
        (fun _ => (.error (.rpc (some 404)) : Except RpcFailure Unit)) =
      (.error (.rpc (some 404)), []) ∧
    rpcCall 3 1000 (fun _ => (.error .timeout : Except RpcFailure Unit)) =
      (.error .timeout, [1000, 2000, 4000]) ∧
    mkNanoRpcClient {} =
      { timeout := 10000, retries := 3, retryDelay := 1000 } := by
  obtain ⟨h1, h2, h3⟩ := rpc_retry_policy 3 1000 404
    (fun _ => (.error (.rpc (some 404)) : Except RpcFailure Unit))
    (fun _ => .error .timeout) (fun _ => .timeout) rfl (by omega) (by omega)
    (fun _ _ => rfl) (fun _ _ => rfl)
  refine ⟨h1, ?_, h3⟩
  rw [h2]
  rfl

theorem dropWhile_eq_self_of_forall {α : Type} (p : α → Bool) (l : List α)
    (h : ∀ c ∈ l, p c = false) : l.dropWhile p = l := by
  cases l with
  | nil => rfl
  | cons a t => simp [List.dropWhile_cons, h a (List.mem_cons_self a t)]

theorem takeWhile_all {α : Type} (p : α → Bool) (l : List α)
    (h : ∀ c ∈ l, p c = true) : l.takeWhile p = l := by
  induction l with
  | nil => rfl
  | cons a t ih =>
    simp [List.takeWhile_cons, h a (List.mem_cons_self a t),
      ih fun c hc => h c (List.mem_cons_of_mem a hc)]

theorem dropWhile_all {α : Type} (p : α → Bool) (l : List α)
    (h : ∀ c ∈ l, p c = true) : l.dropWhile p = [] := by
  induction l with
  | nil => rfl
  | cons a t ih =>
    simp [List.dropWhile_cons, h a (List.mem_cons_self a t),
      ih fun c hc => h c (List.mem_cons_of_mem a hc)]

theorem takeWhile_append_boundary {α : Type} (p : α → Bool) (I : List α)
    (b : α) (r : List α) (hI : ∀ c ∈ I, p c = true) (hb : p b = false) :
    (I ++ b :: r).takeWhile p = I ∧ (I ++ b :: r).dropWhile p = b :: r := by
  induction I with
  | nil => simp [List.takeWhile_cons, List.dropWhile_cons, hb]
  | cons a t ih =>
    have ha := hI a (List.mem_cons_self a t)
    have iht := ih fun c hc => hI c (List.mem_cons_of_mem a hc)
    simp [List.takeWhile_cons, List.dropWhile_cons, ha, iht.1, iht.2]

theorem dropZeros_replicate_append (k : Nat) (l : List Char) :
    (List.replicate k '0' ++ l).dropWhile (· == '0') =
      l.dropWhile (· == '0') := by
  induction k with
  | zero => rfl
  | succ k ih => simp [List.replicate_succ, List.dropWhile_cons, ih]

theorem head_dropWhile_false {α : Type} (p : α → Bool) (l : List α) :
    ∀ c, (l.dropWhile p).head? = some c → p c = false := by
  induction l with
  | nil => intro c h; simp at h
  | cons a t ih =>
    intro c h
    by_cases hp : p a
    · rw [List.dropWhile_cons, if_pos hp] at h
      exact ih c h
    · rw [List.dropWhile_cons, if_neg hp] at h
      simp only [List.head?_cons, Option.some.injEq] at h
      subst h
      simpa using hp

theorem dropZeros_of_head_ne (l : List Char) (c : Char) (hl : l.head? = some c)
    (hc : c ≠ '0') : l.dropWhile (· == '0') = l := by
  cases l with
  | nil => simp at hl
  | cons a t =>
    simp only [List.head?_cons, Option.some.injEq] at hl
    subst hl
    simp [List.dropWhile_cons, hc]

theorem zeros_decomposition (l : List Char) :
    l = List.replicate (l.takeWhile (· == '0')).length '0' ++
      l.dropWhile (· == '0') := by
  have h1 := List.takeWhile_append_dropWhile (p := (· == '0')) (l := l)
  have h2 : l.takeWhile (· == '0') =
      List.replicate (l.takeWhile (· == '0')).length '0' := by
    rw [List.eq_replicate]
    refine ⟨rfl, fun b hb => ?_⟩
    have := List.mem_takeWhile_imp hb
    simpa using this
  conv_lhs => rw [← h1]
  rw [← h2]

theorem pad_take (D : List Char) (h : D.length ≤ 30) :
    (D ++ List.replicate 30 '0').take 30 =
      D ++ List.replicate (30 - D.length) '0' := by
  rw [List.take_append_eq_append_take, List.take_of_length_le h,
    List.take_replicate]
  rw [min_eq_left (Nat.sub_le 30 D.length)]

theorem rtrim_append_zeros (D : List Char) (k : Nat) (hne : D ≠ [])
    (hlast : D.getLast? ≠ some '0') :
    ((D ++ List.replicate k '0').reverse.dropWhile (· == '0')).reverse = D := by
  rw [List.reverse_append, List.reverse_replicate, dropZeros_replicate_append]
  have hstep : D.reverse.dropWhile (· == '0') = D.reverse := by
    cases hr : D.reverse with
    | nil => simp
    | cons a t =>
      have hha : D.reverse.head? = some a := by rw [hr]; rfl
      rw [List.head?_reverse] at hha
      have ha : a ≠ '0' := fun heq => hlast (heq ▸ hha)
      rw [List.dropWhile_cons]
      simp [ha]
  rw [hstep, List.reverse_reverse]

theorem rtrim_replicate (k : Nat) :
    ((List.replicate k '0').reverse.dropWhile (· == '0')).reverse = [] := by
  rw [List.reverse_replicate]
  rw [dropWhile_all _ _ fun c hc => by
    simpa using List.eq_of_mem_replicate hc]
  rfl

theorem isDigit_not_ws (c : Char) (h : c.isDigit = true) :
    c.isWhitespace = false := by
  by_cases h1 : c = ' '
  · subst h1; simp at h
  by_cases h2 : c = '\t'
  · subst h2; simp at h
  by_cases h3 : c = '\r'
  · subst h3; simp at h
  by_cases h4 : c = '\n'
  · subst h4; simp at h
  simp [Char.isWhitespace, h1, h2, h3, h4]

theorem isDigit_ne (c : Char) (h : c.isDigit = true) (d : Char)
    (hd : d.isDigit = false) : c ≠ d := by
  intro heq
  subst heq
  rw [h] at hd
  simp at hd

theorem jsTrim_eq_self (l : List Char) (h : ∀ c ∈ l, c.isWhitespace = false) :
    jsTrim l = l := by
  unfold jsTrim
  rw [dropWhile_eq_self_of_forall _ _ h]
  rw [dropWhile_eq_self_of_forall _ _ fun c hc => h c (by simpa using hc)]
  exact List.reverse_reverse l

theorem no_ws_of_digits_dot (I D : List Char) (hI : ∀ c ∈ I, c.isDigit = true)
    (hD : ∀ c ∈ D, c.isDigit = true) :
    ∀ c ∈ I ++ '.' :: D, c.isWhitespace = false := by
  intro c hc
  rcases List.mem_append.mp hc with hc | hc
  · exact isDigit_not_ws c (hI c hc)
  · rcases List.mem_cons.mp hc with rfl | hc
    · decide
    · exact isDigit_not_ws c (hD c hc)

theorem no_sci_of_digits_dot (I D : List Char) (hI : ∀ c ∈ I, c.isDigit = true)
    (hD : ∀ c ∈ D, c.isDigit = true) :
    hasSciChar (I ++ '.' :: D) = false := by
  simp only [hasSciChar, List.any_eq_false]
  intro c hc
  have hdig : c.isDigit = true ∨ c = '.' := by
    rcases List.mem_append.mp hc with hc | hc
    · exact Or.inl (hI c hc)
    · rcases List.mem_cons.mp hc with rfl | hc
      · exact Or.inr rfl
      · exact Or.inl (hD c hc)

  rcases hdig with hdig | rfl
  · simp [isDigit_ne c hdig 'e' (by decide), isDigit_ne c hdig 'E' (by decide)]
  · decide

theorem no_sci_of_digits (I : List Char) (hI : ∀ c ∈ I, c.isDigit = true) :
    hasSciChar I = false := by
  simp only [hasSciChar, List.any_eq_false]
  intro c hc
  simp [isDigit_ne c (hI c hc) 'e' (by decide),
    isDigit_ne c (hI c hc) 'E' (by decide)]

theorem head_ne_dash_of_digits (l r : List Char) (hne : l ≠ [])
    (hl : ∀ c ∈ l, c.isDigit = true) : (l ++ r).head? ≠ some '-' := by
  cases l with
  | nil => exact absurd rfl hne
  | cons a t =>
    have := hl a (List.mem_cons_self a t)
    simpa using isDigit_ne a this '-' (by decide)

theorem validNumFormat_frac (I D : List Char) (hIne : I ≠ [])
    (hI : ∀ c ∈ I, c.isDigit = true) (hDne : D ≠ [])
    (hD : ∀ c ∈ D, c.isDigit = true) :
    validNumFormat (I ++ '.' :: D) = true := by
  unfold validNumFormat
  rw [if_neg (by simpa using head_ne_dash_of_digits I ('.' :: D) hIne hI)]
  obtain ⟨ht, hd⟩ := takeWhile_append_boundary Char.isDigit I '.' D hI (by decide)
  simp only [ht, hd]
  simp only [List.all_eq_true, Bool.and_eq_true, Bool.or_eq_true]
  refine ⟨by simpa using hIne, Or.inr ⟨by simpa using hDne, hD⟩⟩

theorem validNumFormat_int (I : List Char) (hIne : I ≠ [])
    (hI : ∀ c ∈ I, c.isDigit = true) : validNumFormat I = true := by
  unfold validNumFormat
  rw [if_neg (by
    have := head_ne_dash_of_digits I [] hIne hI
    simpa using this)]
  simp only [takeWhile_all _ _ hI, dropWhile_all _ _ hI]
  simp [hIne]

theorem splitDot_frac (I D : List Char) (hI : ∀ c ∈ I, c.isDigit = true) :
    splitDot (I ++ '.' :: D) = (I, some D) := by
  unfold splitDot
  obtain ⟨ht, hd⟩ := takeWhile_append_boundary (· != '.') I '.' D
    (fun c hc => by simpa using isDigit_ne c (hI c hc) '.' (by decide))
    (by decide)
  rw [ht, hd]

theorem splitDot_int (I : List Char) (hI : ∀ c ∈ I, c.isDigit = true) :
    splitDot I = (I, none) := by
  unfold splitDot
  have hall : ∀ c ∈ I, (c != '.') = true := fun c hc => by
    simpa using isDigit_ne c (hI c hc) '.' (by decide)
  rw [takeWhile_all _ _ hall, dropWhile_all _ _ hall]

theorem xnoToRawL_eval_frac (I D r : List Char)
    (hIne : I ≠ []) (hI : ∀ c ∈ I, c.isDigit = true)
    (hDne : D ≠ []) (hD : ∀ c ∈ D, c.isDigit = true) (hDl : D.length ≤ 30)
    (hok : xnoToRawL (I ++ '.' :: D) = .ok r) :
    r = (if ((I ++ (D ++ List.replicate (30 - D.length) '0')).dropWhile
            (· == '0')).isEmpty
         then ['0']
         else (I ++ (D ++ List.replicate (30 - D.length) '0')).dropWhile
            (· == '0')) := by
  have hxne : (I ++ '.' :: D).isEmpty = false := by
    cases I with
    | nil => exact absurd rfl hIne
    | cons a t => rfl
  have hws : jsTrim (I ++ '.' :: D) = I ++ '.' :: D :=
    jsTrim_eq_self _ (no_ws_of_digits_dot I D hI hD)
  have hsci := no_sci_of_digits_dot I D hI hD
  have hfmt := validNumFormat_frac I D hIne hI hDne hD
  have hhead := head_ne_dash_of_digits I ('.' :: D) hIne hI
  have hsplit := splitDot_frac I D hI
  have hIe : I.isEmpty = false := by
    cases I with
    | nil => exact absurd rfl hIne
    | cons a t => rfl
  have hlen : ¬(30 < D.length) := by omega
  unfold xnoToRawL at hok
  rw [hxne] at hok
  simp only [Bool.false_eq_true, if_false, hws, hxne, hsci, hfmt, Bool.not_true,
    hsplit, hIe, hlen, if_true] at hok
  rw [if_neg hhead] at hok
  simp only [Option.getD_some, pad_take D hDl] at hok
  rw [if_neg hlen] at hok
  split at hok
  · rename_i hde
    split at hok
    · simp at hok
    · split at hok
      · simp at hok
      · simp only [Except.ok.injEq] at hok
        rw [if_pos hde]
        exact hok.symm
  · rename_i hde
    split at hok
    · simp at hok
    · split at hok
      · simp at hok
      · simp only [Except.ok.injEq] at hok
        rw [if_neg hde]
        exact hok.symm

theorem xnoToRawL_eval_int (I r : List Char)
    (hIne : I ≠ []) (hI : ∀ c ∈ I, c.isDigit = true)
    (hok : xnoToRawL I = .ok r) :
    r = (if ((I ++ List.replicate 30 '0').dropWhile (· == '0')).isEmpty
         then ['0']
         else (I ++ List.replicate 30 '0').dropWhile (· == '0')) := by
  have hxne : I.isEmpty = false := by
    cases I with
    | nil => exact absurd rfl hIne
    | cons a t => rfl
  have hws : jsTrim I = I :=
    jsTrim_eq_self _ fun c hc => isDigit_not_ws c (hI c hc)
  have hsci := no_sci_of_digits I hI
  have hfmt := validNumFormat_int I hIne hI
  have hhead : I.head? ≠ some '-' := by
    have := head_ne_dash_of_digits I [] hIne hI
    simpa using this
  have hsplit := splitDot_int I hI
  unfold xnoToRawL at hok
  rw [hxne] at hok
  simp only [Bool.false_eq_true, if_false, hws, hsci, hfmt, Bool.not_true,
    hsplit, hxne, if_true] at hok
  rw [if_neg hhead] at hok
  simp only [Option.getD_none, List.length_nil, List.nil_append,
    List.take_replicate, min_self] at hok
  rw [if_neg (by omega : ¬((30 : Nat) < 0))] at hok
  split at hok
  · rename_i hde
    split at hok
    · simp at hok
    · split at hok
      · simp at hok
      · simp only [Except.ok.injEq] at hok
        rw [if_pos hde]
        exact hok.symm
  · rename_i hde
    split at hok
    · simp at hok
    · split at hok
      · simp at hok
      · simp only [Except.ok.injEq] at hok
        rw [if_neg hde]
        exact hok.symm

theorem head?_append_left {α : Type} (l r : List α) (hne : l ≠ []) :
    (l ++ r).head? = l.head? := by
  cases l with
  | nil => exact absurd rfl hne
  | cons a t => rfl

theorem rawToXnoL_head_ne (I t : List Char) (c : Char)
    (hh : I.head? = some c) (hc : c ≠ '0') (ht : t.length = 30) :
    rawToXnoL (I ++ t) = .ok
      (if ((t.reverse.dropWhile (· == '0')).reverse).isEmpty then I
       else I ++ '.' :: (t.reverse.dropWhile (· == '0')).reverse) := by
  have hIne : I ≠ [] := by intro h; subst h; simp at hh
  have hraw : (I ++ t).isEmpty = false := by
    cases I with
    | nil => exact absurd rfl hIne
    | cons a u => rfl
  have hdw : (I ++ t).dropWhile (· == '0') = I ++ t :=
    dropZeros_of_head_ne _ c (by rw [head?_append_left I t hIne]; exact hh) hc
  have hdne : (I ++ t) ≠ [] := by
    cases I with
    | nil => exact absurd rfl hIne
    | cons a u => simp
  have hlen : (I ++ t).length = I.length + 30 := by simp [ht]
  have hpad : List.replicate (31 - (I ++ t).length) '0' ++ (I ++ t) = I ++ t := by
    have h31 : 31 - (I ++ t).length = 0 := by
      rw [hlen]
      have : 1 ≤ I.length := List.length_pos.mpr hIne
      omega
    rw [h31, List.replicate_zero, List.nil_append]
  unfold rawToXnoL
  simp only [hraw, Bool.false_eq_true, if_false, hdw, hpad]
  simp only [List.length_append, ht]
  have htake : (I ++ t).take (I.length + 30 - 30) = I := by
    rw [Nat.add_sub_cancel]
    exact List.take_left' rfl
  have hdrop2 : (I ++ t).drop (I.length + 30 - 30) = t := by
    rw [Nat.add_sub_cancel]
    exact List.drop_left I t
  rw [htake, hdrop2]
  rw [if_neg (show ¬(I.isEmpty = true) from by simpa using hIne)]

theorem rawToXnoL_zero_case (t : List Char) (ht : t.length = 30)
    (hu : t.dropWhile (· == '0') ≠ []) :
    rawToXnoL (t.dropWhile (· == '0')) = .ok
      (if ((t.reverse.dropWhile (· == '0')).reverse).isEmpty then ['0']
       else '0' :: '.' :: (t.reverse.dropWhile (· == '0')).reverse) := by
  set u := t.dropWhile (· == '0') with hudef
  obtain ⟨c, hch⟩ : ∃ c, u.head? = some c := by
    cases huc : u with
    | nil => exact absurd huc hu
    | cons a v => exact ⟨a, rfl⟩
  have hc0 : c ≠ '0' := by
    have := head_dropWhile_false (· == '0') t c (hudef ▸ hch)
    simpa using this
  have hdw : u.dropWhile (· == '0') = u := dropZeros_of_head_ne u c hch hc0
  have hraw : u.isEmpty = false := by
    cases huc : u with
    | nil => exact absurd huc hu
    | cons a v => rfl
  have hdecomp := zeros_decomposition t
  set j := (t.takeWhile (· == '0')).length with hjdef
  have hjlen : j + u.length = 30 := by
    have hlen2 := congrArg List.length hdecomp
    simp only [List.length_append, List.length_replicate] at hlen2
    rw [← hudef] at hlen2
    omega
  have hpad : List.replicate (31 - u.length) '0' ++ u = '0' :: t := by
    have h31 : 31 - u.length = j + 1 := by omega
    rw [h31]
    have : List.replicate (j + 1) '0' = '0' :: List.replicate j '0' :=
      List.replicate_succ '0' j
    rw [this]
    rw [List.cons_append]
    congr 1
    exact hdecomp.symm
  unfold rawToXnoL
  simp only [hraw, Bool.false_eq_true, if_false, hdw, hpad]
  simp only [List.length_cons, ht]
  have htake : ('0' :: t).take (30 + 1 - 30) = ['0'] := rfl
  have hdrop : ('0' :: t).drop (30 + 1 - 30) = t := rfl
  rw [htake, hdrop]
  rw [if_neg (show ¬((['0'] : List Char).isEmpty = true) from by decide)]
  rfl

theorem canonicalXno_cases (x : List Char) (hc : canonicalXno x = true) :
    (x ≠ [] ∧ (∀ c ∈ x, c.isDigit = true) ∧ (x.head? = some '0' → x = ['0'])) ∨
    (∃ I D, x = I ++ '.' :: D ∧ I ≠ [] ∧ (∀ c ∈ I, c.isDigit = true) ∧
      (I.head? = some '0' → I = ['0']) ∧ D ≠ [] ∧
      (∀ c ∈ D, c.isDigit = true) ∧ D.getLast? ≠ some '0' ∧ D.length ≤ 30) := by
  unfold canonicalXno at hc
  rcases hsd : splitDot x with ⟨ip, dopt⟩
  rw [hsd] at hc
  cases dopt with
  | none =>
    left
    simp only [Bool.and_eq_true, canonicalInt, Bool.or_eq_true, Bool.not_eq_eq_eq_not,
      Bool.not_true, List.all_eq_true, beq_iff_eq] at hc
    obtain ⟨⟨⟨hne, hdig⟩, hz⟩, hnodot⟩ := hc
    have hip : ip = x := by
      have h1 : (splitDot x).1 = x.takeWhile (· != '.') := by
        unfold splitDot
        cases x.dropWhile (· != '.') <;> rfl
      rw [hsd] at h1
      dsimp at h1
      rw [h1]
      exact takeWhile_all _ _ hnodot
    subst hip
    refine ⟨by simpa using hne, hdig, fun hh => ?_⟩
    rcases hz with hz | hz
    · rw [hh] at hz; simp at hz
    · exact hz
  | some dp =>
    right
    simp only [Bool.and_eq_true, canonicalInt, Bool.or_eq_true, Bool.not_eq_eq_eq_not,
      Bool.not_true, List.all_eq_true, beq_iff_eq, decide_eq_true_eq] at hc
    obtain ⟨h5, hxeq⟩ := hc
    obtain ⟨h4, hdlen⟩ := h5
    obtain ⟨h3, hdlast⟩ := h4
    obtain ⟨h2, hddig⟩ := h3
    obtain ⟨h1, hdne⟩ := h2
    obtain ⟨⟨hne, hdig⟩, hz⟩ := h1
    refine ⟨ip, dp, hxeq, by simpa using hne, hdig, fun hh => ?_, by simpa using hdne,
      hddig, ?_, hdlen⟩
    · rcases hz with hz | hz
      · rw [hh] at hz; simp at hz
      · exact hz
    · intro hcon
      rw [hcon] at hdlast
      simp at hdlast

/-- Round trip on canonical decimal strings: whenever `xnoToRaw` succeeds
on a canonical input, `rawToXno` maps the produced raw string back to the
exact input. -/
theorem xno_round_trip_canonical (x r : List Char) (hc : canonicalXno x = true)
    (hok : xnoToRawL x = .ok r) : rawToXnoL r = .ok x := by
  rcases canonicalXno_cases x hc with ⟨hne, hdig, hzero⟩ |
    ⟨I, D, rfl, hIne, hI, hIz, hDne, hD, hDlast, hDl⟩
  · by_cases hz : x.head? = some '0'
    · have hx := hzero hz
      subst hx
      have hval : xnoToRawL ['0'] = .ok ['0'] := by rfl
      rw [hval] at hok
      simp only [Except.ok.injEq] at hok
      subst hok
      rfl
    · have hre := xnoToRawL_eval_int x r hne hdig hok
      obtain ⟨a, ha⟩ : ∃ a, x.head? = some a := by
        cases x with
        | nil => exact absurd rfl hne
        | cons b t => exact ⟨b, rfl⟩
      have hane : a ≠ '0' := fun h => hz (h ▸ ha)
      have hdw : (x ++ List.replicate 30 '0').dropWhile (· == '0') =
          x ++ List.replicate 30 '0' :=
        dropZeros_of_head_ne _ a (by rw [head?_append_left x _ hne]; exact ha) hane
      have hxe : (x ++ List.replicate 30 '0').isEmpty = false := by
        cases x with
        | nil => exact absurd rfl hne
        | cons b t => rfl
      have hr : r = x ++ List.replicate 30 '0' := by
        rw [hre, hdw]
        rw [if_neg (by simp [hxe])]
      subst hr
      rw [rawToXnoL_head_ne x (List.replicate 30 '0') a ha hane (by simp)]
      rw [rtrim_replicate]
      rfl
  · have hre := xnoToRawL_eval_frac I D r hIne hI hDne hD hDl hok
    have htlen : (D ++ List.replicate (30 - D.length) '0').length = 30 := by
      simp
      omega
    by_cases hz : I.head? = some '0'
    · have hI0 := hIz hz
      subst hI0
      have hcomb : ((['0'] : List Char) ++ (D ++ List.replicate (30 - D.length) '0')).dropWhile
          (· == '0') =
          (D ++ List.replicate (30 - D.length) '0').dropWhile (· == '0') := by
        have h1 := dropZeros_replicate_append 1 (D ++ List.replicate (30 - D.length) '0')
        simpa using h1
      have hune : (D ++ List.replicate (30 - D.length) '0').dropWhile (· == '0') ≠ [] := by
        intro hnil
        rw [List.dropWhile_eq_nil_iff] at hnil
        have hmem : D.getLast hDne ∈ D ++ List.replicate (30 - D.length) '0' :=
          List.mem_append_left _ (List.getLast_mem hDne)
        have hval := hnil _ hmem
        apply hDlast
        rw [List.getLast?_eq_getLast D hDne]
        simpa using hval
      have hr : r = (D ++ List.replicate (30 - D.length) '0').dropWhile (· == '0') := by
        rw [hre, hcomb]
        rw [if_neg (by simpa using hune)]
      subst hr
      rw [rawToXnoL_zero_case _ htlen hune]
      rw [rtrim_append_zeros D (30 - D.length) hDne hDlast]
      rw [if_neg (by simpa using hDne)]
      rfl
    · obtain ⟨a, ha⟩ : ∃ a, I.head? = some a := by
        cases I with
        | nil => exact absurd rfl hIne
        | cons b t => exact ⟨b, rfl⟩
      have hane : a ≠ '0' := fun h => hz (h ▸ ha)
      have hdw : (I ++ (D ++ List.replicate (30 - D.length) '0')).dropWhile (· == '0') =
          I ++ (D ++ List.replicate (30 - D.length) '0') :=
        dropZeros_of_head_ne _ a (by rw [head?_append_left I _ hIne]; exact ha) hane
      have hxe : (I ++ (D ++ List.replicate (30 - D.length) '0')).isEmpty = false := by
        cases I with
        | nil => exact absurd rfl hIne
        | cons b t => rfl
      have hr : r = I ++ (D ++ List.replicate (30 - D.length) '0') := by
        rw [hre, hdw]
        rw [if_neg (by simp [hxe])]
      subst hr
      rw [rawToXnoL_head_ne I _ a ha hane htlen]
      rw [rtrim_append_zeros D (30 - D.length) hDne hDlast]
      rw [if_neg (by simpa using hDne)]

theorem ok_of_error_chain {a b : Type} (c1 c2 c3 c4 c5 c6 c7 c8 : Prop)
    [Decidable c1] [Decidable c2] [Decidable c3] [Decidable c4] [Decidable c5]
    [Decidable c6] [Decidable c7] [Decidable c8]
    (e1 e2 e3 e4 e5 e6 e7 e8 : b) (v r : a)
    (h : (if c1 then Except.error e1 else if c2 then Except.error e2 else
          if c3 then Except.error e3 else if c4 then Except.error e4 else
          if c5 then Except.error e5 else if c6 then Except.error e6 else
          if c7 then Except.error e7 else if c8 then Except.error e8 else
          Except.ok v) = Except.ok r) :
    ¬c1 ∧ ¬c2 ∧ ¬c3 ∧ ¬c4 ∧ ¬c5 ∧ ¬c6 ∧ ¬c7 ∧ ¬c8 ∧ r = v := by
  by_cases h1 : c1
  · rw [if_pos h1] at h; exact absurd h (by simp)
  rw [if_neg h1] at h
  by_cases h2 : c2
  · rw [if_pos h2] at h; exact absurd h (by simp)
  rw [if_neg h2] at h
  by_cases h3 : c3
  · rw [if_pos h3] at h; exact absurd h (by simp)
  rw [if_neg h3] at h
  by_cases h4 : c4
  · rw [if_pos h4] at h; exact absurd h (by simp)
  rw [if_neg h4] at h
  by_cases h5 : c5
  · rw [if_pos h5] at h; exact absurd h (by simp)
  rw [if_neg h5] at h
  by_cases h6 : c6
  · rw [if_pos h6] at h; exact absurd h (by simp)
  rw [if_neg h6] at h
  by_cases h7 : c7
  · rw [if_pos h7] at h; exact absurd h (by simp)
  rw [if_neg h7] at h
  by_cases h8 : c8
  · rw [if_pos h8] at h; exact absurd h (by simp)
  rw [if_neg h8] at h
  simp only [Except.ok.injEq] at h
  exact ⟨h1, h2, h3, h4, h5, h6, h7, h8, h.symm⟩

theorem xnoToRawL_ok_implies (x r : List Char) (h : xnoToRawL x = .ok r) :
    hasSciChar (jsTrim x) = false ∧
    validNumFormat (jsTrim x) = true ∧
    (jsTrim x).head? ≠ some '-' ∧
    ((splitDot (jsTrim x)).2.getD []).length ≤ 30 ∧
    r.length ≤ MAX_RAW.length ∧
    (r.length = MAX_RAW.length → lexGt r MAX_RAW = false) := by
  unfold xnoToRawL at h
  unfold_let at h
  have hchain := ok_of_error_chain _ _ _ _ _ _ _ _ _ _ _ _ _ _ _ _ _ _ h
  obtain ⟨-, -, hsci, hfmt, hdash, hprec, hlt, hbound, hr⟩ := hchain
  refine ⟨by simpa using hsci, by simpa using hfmt, hdash, by omega, ?_, ?_⟩
  · rw [hr]
    omega
  · intro hlen
    by_cases hg : lexGt r MAX_RAW = true
    · exfalso
      apply hbound
      rw [← hr]
      simp [hlen, hg]
    · simpa using hg

/-- C7 (amended): amount conversion.  Part 1: the round trip
`rawToXno (xnoToRaw x) = x` holds for every canonical decimal string
(no redundant leading zeros in the integer part; a fractional part, when
present, nonempty with no trailing zero and at most 30 digits).  Part 2:
whenever `xnoToRaw` succeeds, the input had survived every validation —
no scientific notation, well-formed decimal grammar, no minus sign, at
most 30 decimal places — and the produced raw string respects the
`2^128 - 1` maximum.  Part 3 (contrapositive of 2): any input with
scientific notation, a malformed grammar, a leading minus after trim, or
more than 30 decimal places fails with `InvalidAmountError`. -/
theorem xno_conversion_round_trip :
    (∀ x r, canonicalXno x = true → xnoToRawL x = .ok r →
      rawToXnoL r = .ok x) ∧
    (∀ x r, xnoToRawL x = .ok r →
      hasSciChar (jsTrim x) = false ∧ validNumFormat (jsTrim x) = true ∧
      (jsTrim x).head? ≠ some '-' ∧
      ((splitDot (jsTrim x)).2.getD []).length ≤ 30 ∧
      r.length ≤ MAX_RAW.length ∧
      (r.length = MAX_RAW.length → lexGt r MAX_RAW = false)) ∧
    (∀ x, (hasSciChar (jsTrim x) = true ∨ validNumFormat (jsTrim x) = false ∨
        (jsTrim x).head? = some '-' ∨
        30 < ((splitDot (jsTrim x)).2.getD []).length) →
      ∃ m, xnoToRawL x = .error (.invalid m)) := by
  refine ⟨xno_round_trip_canonical, xnoToRawL_ok_implies, ?_⟩
  intro x hx
  cases he : xnoToRawL x with
  | error e =>
    cases e with
    | invalid m => exact ⟨m, rfl⟩
  | ok r =>
    obtain ⟨hs, hv, hh, hp, -, -⟩ := xnoToRawL_ok_implies x r he
    rcases hx with hx | hx | hx | hx
    · rw [hs] at hx
      simp at hx
    · rw [hv] at hx
      simp at hx
    · exact absurd hx hh
    · omega

/-- C7 counterexample: the raw decimal string "1.50" is accepted by
`xnoToRaw` (it is within the 30-decimal-place precision), yet the round
trip returns the normalized "1.5", not "1.50" — the round-trip identity
fails on representable but non-canonical inputs. -/
theorem xno_round_trip_fails_on_valid_input :
    xnoToRawL ("1.50".data) =
      .ok ("1500000000000000000000000000000".data) ∧
    rawToXnoL ("1500000000000000000000000000000".data) =
      .ok ("1.5".data) ∧
    "1.5".data ≠ "1.50".data := by
  refine ⟨rfl, rfl, by decide⟩

/-- C7 witness: the round trip at the canonical "1.5", and concrete
invalid inputs — scientific notation "1e5" and negative "-1" — failing
with `InvalidAmountError`. -/
theorem xno_conversion_round_trip_witness :
    rawToXnoL ("1500000000000000000000000000000".data) =
      .ok ("1.5".data) ∧
    (∃ m, xnoToRawL ("1e5".data) = .error (.invalid m)) ∧
    (∃ m, xnoToRawL ("-1".data) = .error (.invalid m)) :=
  ⟨xno_conversion_round_trip.1 ("1.5".data)
      ("1500000000000000000000000000000".data) (by decide) rfl,
   xno_conversion_round_trip.2.2 ("1e5".data) (Or.inl (by decide)),
   xno_conversion_round_trip.2.2 ("-1".data)
     (Or.inr (Or.inr (Or.inl (by decide))))⟩

end Nano402
